import Mathlib

/-!
Verification of the tabulon table-interaction library.

The development shallowly embeds the code of `src/tableInteractor.ts`
(class `TableInteractor`) and `src/errorUtils.ts` (colored error
formatting).  DOM elements are modelled as explicit data: a cell carries
the text content the automation layer would report for it, the rows of
any table nested inside it (one level of nesting, which is all the code
ever distinguishes: it only counts descendant data cells), and the list
of selectors matched by its action descendants.  Machine strings are
Lean strings; the JavaScript `trim`, `includes` and `join` operations
are defined explicitly below so that every comparison made by the code
is mirrored exactly.
-/

namespace Tabulon

/-! ## JavaScript string primitives -/

/-- Whitespace predicate used by the model of JavaScript `String.prototype.trim`. -/
def isJsWs (c : Char) : Bool := c.isWhitespace

/-- Trimming on character lists: drop leading and trailing whitespace. -/
def trimChars (l : List Char) : List Char :=
  ((l.dropWhile isJsWs).reverse.dropWhile isJsWs).reverse

/-- Model of JavaScript `s.trim()`. -/
def jsTrim (s : String) : String := ⟨trimChars s.data⟩

/-- Model of JavaScript `hay.includes(needle)`: substring containment. -/
def jsIncludes (hay needle : String) : Bool := decide (needle.data <:+: hay.data)

/-- Model of JavaScript `Array.prototype.join(", ")` on an array of strings. -/
def joinComma : List String → String
  | [] => ""
  | [a] => a
  | a :: rest => a ++ ", " ++ joinComma rest

/-- The string `needle` occurs inside the string `hay` (substring relation). -/
def strContains (hay needle : String) : Prop := needle.data <:+: hay.data

instance (hay needle : String) : Decidable (strContains hay needle) :=
  inferInstanceAs (Decidable (needle.data <:+: hay.data))

/-- Truthiness of an optional string, as JavaScript sees it: present and non-empty. -/
def optTruthy : Option String → Bool
  | some s => s != ""
  | none => false

/-! ## DOM model

A `BasicTd` is a data-cell element of a nested table (the code never
looks below that level).  A `Cell` is a direct-child data cell of a body
row: its `text` is the `textContent` the automation layer reports
(`null` already coerced to the empty string, as every call site does via
`|| ''`), `subRows` are the rows of any table nested inside the cell,
and `actions` lists the selectors matched by action descendants of the
cell element itself. -/

structure BasicTd where
  text : String
  actions : List String
deriving DecidableEq

structure Cell where
  text : String
  actions : List String
  subRows : List (List BasicTd)
deriving DecidableEq

/-- Descendant data cells of a cell, `cell.locator('td')` on one cell. -/
def Cell.subTds (c : Cell) : List BasicTd := c.subRows.flatten

/-- A direct-child body row of the table (`tbody > tr` not inside a nested table). -/
structure Row where
  cells : List Cell
deriving DecidableEq

/-- Any element matched by `tableLocator.locator('tbody > tr')`: either a
direct body row of the table, or a row of a table nested inside some cell. -/
inductive BodyRow where
  | outer (r : Row)
  | nested (cells : List BasicTd)
deriving DecidableEq

/-- Result of the `xpath=ancestor::table[position()>1]` count check: whether
the row lies inside a nested table. -/
def BodyRow.hasNestedTableParent : BodyRow → Bool
  | .outer _ => false
  | .nested _ => true

/-- Direct-child data cells of a body row, `rowLocator.locator('> td')`.
A nested-table row has no tables inside its cells in this model, so its
cells convert to cells with no sub-rows. -/
def BodyRow.directCells : BodyRow → List Cell
  | .outer r => r.cells
  | .nested cs => cs.map (fun b => ⟨b.text, b.actions, []⟩)

/-- Handle on one td element as returned by `rowLocator.locator('td').nth(i)`:
either a direct-child cell of an outer row or a nested-table cell. -/
inductive TdRef where
  | outer (c : Cell)
  | basic (b : BasicTd)
deriving DecidableEq

/-- All descendant td elements of a row in document order,
`rowLocator.locator('td')`: each direct cell followed by the cells of any
table nested inside it. -/
def BodyRow.allTdRefs : BodyRow → List TdRef
  | .outer r => r.cells.flatMap (fun c => TdRef.outer c :: c.subTds.map TdRef.basic)
  | .nested cs => cs.map TdRef.basic

/-- Count of descendants of the referenced cell matching a selector,
`cell.locator(actionSelector).count()`. -/
def TdRef.actionCount : TdRef → String → Nat
  | .outer c, sel => c.actions.count sel + (c.subTds.map (fun b => b.actions.count sel)).sum
  | .basic b, sel => b.actions.count sel

/-- The table handle: the `textContent` of each header cell of
`thead th, thead td` (in DOM order, `none` for a `null` text), and the
direct body rows in document order. -/
structure Table where
  headerCells : List (Option String)
  rows : List Row
deriving DecidableEq

/-- All rows matched by `tableLocator.locator('tbody > tr')` in document
order: each direct body row followed by the rows of tables nested inside
its cells. -/
def Table.bodyRowsAll (t : Table) : List BodyRow :=
  t.rows.flatMap (fun r =>
    BodyRow.outer r :: (r.cells.flatMap (fun c => c.subRows.map BodyRow.nested)))

/-! ## Error formatting (`errorUtils.ts`) -/

/-- ANSI escape prefix byte. -/
def esc : String := "\x1b"

def colorReset : String := esc ++ "[0m"
def colorBright : String := esc ++ "[1m"
def colorRed : String := esc ++ "[31m"
def colorGreen : String := esc ++ "[32m"
def colorYellow : String := esc ++ "[33m"
def colorBlue : String := esc ++ "[34m"
def colorCyan : String := esc ++ "[36m"

/-- Model of `createColoredError(message, context?, suggestion?)`. -/
def createColoredError (message : String) (context suggestion : Option String) : String :=
  (colorBright ++ colorRed ++ "❌ ERROR:" ++ colorReset ++ " " ++ colorRed ++ message ++ colorReset)
  ++ (if optTruthy context then
        "\n" ++ colorBlue ++ "📋 Context:" ++ colorReset ++ " " ++ colorCyan ++ context.getD "" ++ colorReset
      else "")
  ++ (if optTruthy suggestion then
        "\n" ++ colorGreen ++ "💡 Suggestion:" ++ colorReset ++ " " ++ colorYellow ++ suggestion.getD "" ++ colorReset
      else "")

/-- The `errorType` argument of `createTableError`. -/
inductive ErrType where
  | struct
  | headers
  | rows
  | columns
  | cell
  | data
deriving DecidableEq

/-- The literal string of each error type as it appears in the context line. -/
def ErrType.label : ErrType → String
  | .struct => "structure"
  | .headers => "headers"
  | .rows => "rows"
  | .columns => "columns"
  | .cell => "cell"
  | .data => "data"

/-- Truthiness of an optional numeric argument as JavaScript sees it:
present and non-zero. -/
def numTruthy : Option Int → Bool
  | some n => n != 0
  | none => false

/-- Rendering of an optional numeric argument inside a template literal. -/
def numStr : Option Int → String
  | some n => toString n
  | none => "undefined"

/-- The `suggestion` string chosen by the `switch` in `createTableError`. -/
def suggestionFor (etype : ErrType) (expected actual : Option Int) : String :=
  match etype with
  | .struct => "Ensure the table has proper <thead> and <tbody> structure with valid <th> elements"
  | .headers =>
      if numTruthy expected && numTruthy actual then
        "Expected " ++ numStr expected ++ " headers but found " ++ numStr actual ++ ". Check your table header structure."
      else "Verify that your table has the expected column headers"
  | .rows =>
      if numTruthy expected && numTruthy actual then
        "Expected " ++ numStr expected ++ " data rows but found " ++ numStr actual ++ ". Check your table data."
      else "Verify that your table has the expected number of data rows"
  | .columns =>
      if numTruthy expected && numTruthy actual then
        "Expected " ++ numStr expected ++ " columns but found " ++ numStr actual ++ ". Check your table structure."
      else "Verify that your table has the expected number of columns"
  | .cell =>
      if numTruthy expected && numTruthy actual then
        "Expected cell value \"" ++ numStr expected ++ "\" but found \"" ++ numStr actual ++ "\". Check your test data."
      else "Verify that the cell contains the expected value"
  | .data => "Verify that your table data matches the expected structure and values"

/-- Model of `createTableError(errorType, details, expected?, actual?)`. -/
def createTableError (etype : ErrType) (details : String) (expected actual : Option Int) : String :=
  createColoredError details (some ("Table " ++ etype.label ++ " validation failed"))
    (some (suggestionFor etype expected actual))

/-- A thrown table error: the arguments the code passes to
`createTableError` when building the message of the thrown `Error`. -/
structure TableErr where
  etype : ErrType
  details : String
  expected : Option Int
  actual : Option Int
deriving DecidableEq

/-- The full message string of a thrown error. -/
def TableErr.message (e : TableErr) : String :=
  createTableError e.etype e.details e.expected e.actual

/-- The runtime environment read by `supportsColors`: whether
`process.stdout.isTTY` is truthy, and the `NO_COLOR` and `CI` environment
variables. -/
structure Env where
  stdoutIsTTY : Bool
  noColorVar : Option String
  ciVar : Option String
deriving DecidableEq

/-- Model of `supportsColors()`. -/
def supportsColors (env : Env) : Bool :=
  if env.stdoutIsTTY then true
  else !(optTruthy env.noColorVar || env.ciVar == some "true")

/-- The plain-text fallback block of `createSmartError`. -/
def plainErrorText (message : String) (context suggestion : Option String) : String :=
  ("ERROR: " ++ message)
  ++ (if optTruthy context then "\n" ++ "Context: " ++ context.getD "" else "")
  ++ (if optTruthy suggestion then "\n" ++ "Suggestion: " ++ suggestion.getD "" else "")

/-- Model of `createSmartError(message, context?, suggestion?)`. -/
def createSmartError (env : Env) (message : String) (context suggestion : Option String) : String :=
  if supportsColors env then createColoredError message context suggestion
  else plainErrorText message context suggestion

/-! ## Header initialization (`initializeHeaders`) -/

/-- Text of one header cell, `text?.trim() || ''`: a `null` text or a
failed per-cell extraction degrades to the empty string. -/
def headerTextOf : Option String → String
  | some s => jsTrim s
  | none => ""

/-- The `extractedHeaders` array: trimmed text paired with original DOM index. -/
def extractedHeaders (headerCells : List (Option String)) : List (String × Nat) :=
  headerCells.enum.map (fun p => (headerTextOf p.2, p.1))

/-- The `validHeaders` array: extracted headers whose text is non-empty. -/
def validHeaders (headerCells : List (Option String)) : List (String × Nat) :=
  (extractedHeaders headerCells).filter (fun p => 0 < p.1.length)

/-- The `this.headers` array after a successful initialization. -/
def headersOf (headerCells : List (Option String)) : List String :=
  (validHeaders headerCells).map Prod.fst

/-- The `duplicates` array:
`headers.filter((header, index) => headers.indexOf(header) !== index)`. -/
def dupNames (headers : List String) : List String :=
  (headers.enum.filter (fun p => headers.indexOf p.2 != p.1)).map Prod.snd

/-- Header state after successful initialization: the header list and the
entries of `headerToIndexMap` in insertion order. -/
structure HeaderState where
  headers : List String
  valid : List (String × Nat)
deriving DecidableEq

/-- Lookup in `headerToIndexMap`: a JavaScript `Map.set` on a duplicate key
overwrites, so the last entry with the key wins. -/
def lookupIndex (valid : List (String × Nat)) (key : String) : Option Nat :=
  (valid.reverse.find? (fun p => p.1 == key)).map Prod.snd

/-- Model of `initializeHeaders()` on a fresh interactor. -/
def initializeHeaders (headerCells : List (Option String)) : Except TableErr HeaderState :=
  if headerCells.length = 0 then
    .error ⟨.struct, "Table has no header elements. Expected <th> or <td> elements in <thead>.", none, none⟩
  else if (headersOf headerCells).length = 0 then
    .error ⟨.struct, "No valid headers found in table. All headers are empty or failed to extract.", none, none⟩
  else if (headersOf headerCells).dedup.length ≠ (headersOf headerCells).length then
    .error ⟨.headers, "Table contains duplicate header names: " ++ joinComma (dupNames (headersOf headerCells)) ++ ". Headers must be unique.", none, none⟩
  else
    .ok ⟨headersOf headerCells, validHeaders headerCells⟩

/-- Model of `getHeaders()` on a fresh interactor: the header array of a
successful initialization. -/
def getHeaders (headerCells : List (Option String)) : Except TableErr (List String) :=
  (initializeHeaders headerCells).map HeaderState.headers

/-- Model of `getCellByHeader(rowLocator, headerText)` on a fresh
interactor.  Returns the locator `rowLocator.locator('td').nth(index)`;
an index past the end yields a dangling locator, modelled as `none`. -/
def getCellByHeader (headerCells : List (Option String)) (row : BodyRow) (headerText : String) :
    Except TableErr (Option TdRef) :=
  match initializeHeaders headerCells with
  | .error e => .error e
  | .ok st =>
    match lookupIndex st.valid (jsTrim headerText) with
    | none =>
        .error ⟨.headers, "Header \"" ++ headerText ++ "\" not found. Available headers: " ++ joinComma st.headers, none, none⟩
    | some idx => .ok (row.allTdRefs[idx]?)

/-! ## Cell-meaningfulness algorithm (`getCellByIndex`, `extractTableData`) -/

/-- The layer-2 check of the algorithm:
`cellTexts.slice(i+1).some(o => o && o.trim() && cellText.includes(o.trim()))`. -/
def containsOtherCellContent (cellText : String) (laterTexts : List String) : Bool :=
  laterTexts.any (fun other => other != "" && jsTrim other != "" && jsIncludes cellText (jsTrim other))

/-- The meaningful-cell loop of `getCellByIndex`, accumulating kept cells.
Layer 1 keeps cells wrapping nested data cells; layer 2 discards cells whose
text contains the trimmed text of a later non-empty cell; layer 3 keeps
non-empty cells and keeps empty ones only once the accumulator is non-empty. -/
def meaningfulCellsAux (acc : List Cell) : List Cell → List Cell
  | [] => acc
  | c :: rest =>
    if 0 < c.subTds.length then
      meaningfulCellsAux (acc ++ [c]) rest
    else if containsOtherCellContent c.text (rest.map Cell.text) then
      meaningfulCellsAux acc rest
    else if c.text ≠ "" ∧ 0 < (jsTrim c.text).length then
      meaningfulCellsAux (acc ++ [c]) rest
    else if 0 < acc.length then
      meaningfulCellsAux (acc ++ [c]) rest
    else
      meaningfulCellsAux acc rest

/-- The meaningful-cell sequence of a row given its direct-child cells. -/
def meaningfulCells (cells : List Cell) : List Cell := meaningfulCellsAux [] cells

/-- Model of `getCellByIndex(rowLocator, index)` given the direct-child
cells of the row.  The index is a JavaScript number, modelled as `Int`. -/
def getCellByIndex (cells : List Cell) (index : Int) : Except TableErr Cell :=
  if h0 : index < 0 then
    .error ⟨.columns, "Column index " ++ toString index ++ " is invalid. Index must be 0 or greater.", some 0, some index⟩
  else
    if h1 : ((meaningfulCells cells).length : Int) ≤ index then
      .error ⟨.columns, "Column index " ++ toString index ++ " is out of bounds. Row has " ++ toString (meaningfulCells cells).length ++ " meaningful columns (valid range: 0 to " ++ toString (((meaningfulCells cells).length : Int) - 1) ++ ").", some (((meaningfulCells cells).length : Int) - 1), some index⟩
    else
      .ok ((meaningfulCells cells).get ⟨index.toNat, by omega⟩)

/-- The meaningful-cell loop of `extractTableData`, accumulating trimmed
texts: identical branch structure, pushing `cellText.trim()` where the
other loop pushes the cell. -/
def meaningfulTextsAux (acc : List String) : List Cell → List String
  | [] => acc
  | c :: rest =>
    if 0 < c.subTds.length then
      meaningfulTextsAux (acc ++ [jsTrim c.text]) rest
    else if containsOtherCellContent c.text (rest.map Cell.text) then
      meaningfulTextsAux acc rest
    else if c.text ≠ "" ∧ 0 < (jsTrim c.text).length then
      meaningfulTextsAux (acc ++ [jsTrim c.text]) rest
    else if 0 < acc.length then
      meaningfulTextsAux (acc ++ [jsTrim c.text]) rest
    else
      meaningfulTextsAux acc rest

/-- The trimmed meaningful-cell texts of a row as computed by `extractTableData`. -/
def meaningfulTexts (cells : List Cell) : List String := meaningfulTextsAux [] cells

/-- One extracted row object: for `i` below the minimum of the two lengths,
`row[headers[i]] = texts[i]`, guarded by `if (header)`. -/
def extractRowRecord (headers : List String) (texts : List String) : List (String × String) :=
  (headers.zip texts).filter (fun p => p.1 ≠ "")

/-- The extracted snapshot returned by `extractTableData`. -/
structure TableData where
  headers : List String
  rows : List (List (String × String))
deriving DecidableEq

/-- Model of `extractTableData()` on a fresh interactor. -/
def extractTableData (t : Table) : Except TableErr TableData :=
  match initializeHeaders t.headerCells with
  | .error e => .error e
  | .ok st =>
    let rowLocators := t.bodyRowsAll.filter (fun r => !r.hasNestedTableParent)
    .ok ⟨st.headers, rowLocators.map (fun r => extractRowRecord st.headers (meaningfulTexts r.directCells))⟩

/-- Model of `getRowCount()`: body rows that are not inside a nested table. -/
def getRowCount (t : Table) : Nat :=
  (t.bodyRowsAll.filter (fun r => !r.hasNestedTableParent)).length

/-- Model of `clickCellAction(rowIndex, headerText, actionSelector)`.
The row is taken from the unfiltered `tbody > tr` list; on success the
result is the cell inside which the first matching action element was
clicked. -/
def clickCellAction (t : Table) (rowIndex : Nat) (headerText actionSelector : String) :
    Except TableErr TdRef :=
  if h : t.bodyRowsAll.length ≤ rowIndex then
    .error ⟨.rows, "Row index " ++ toString rowIndex ++ " is out of bounds. Table has " ++ toString t.bodyRowsAll.length ++ " rows.", some ((t.bodyRowsAll.length : Int) - 1), some (rowIndex : Int)⟩
  else
    match getCellByHeader t.headerCells (t.bodyRowsAll.get ⟨rowIndex, by omega⟩) headerText with
    | .error e => .error e
    | .ok (some td) =>
      if td.actionCount actionSelector = 0 then
        .error ⟨.cell, "No action element found matching selector \"" ++ actionSelector ++ "\" in cell at row " ++ toString rowIndex ++ ", column \"" ++ headerText ++ "\".", none, none⟩
      else .ok td
    | .ok none =>
      .error ⟨.cell, "No action element found matching selector \"" ++ actionSelector ++ "\" in cell at row " ++ toString rowIndex ++ ", column \"" ++ headerText ++ "\".", none, none⟩

/-! ## Decidability of result comparison -/

instance {ε α : Type} [DecidableEq ε] [DecidableEq α] : DecidableEq (Except ε α)
  | .error e, .error f => decidable_of_iff (e = f) (by simp)
  | .error _, .ok _ => isFalse (by intro h; cases h)
  | .ok _, .error _ => isFalse (by intro h; cases h)
  | .ok a, .ok b => decidable_of_iff (a = b) (by simp)

/-! ## String lemmas -/

theorem mk_eq_empty_iff {l : List Char} : (⟨l⟩ : String) = "" ↔ l = [] := by
  constructor
  · intro h
    exact congrArg String.data h
  · intro h
    rw [h]

theorem strContains_self (s : String) : strContains s s :=
  List.infix_refl _

theorem strContains_appendL {s n : String} (t : String) (h : strContains s n) :
    strContains (s ++ t) n := by
  unfold strContains at h ⊢
  rw [String.data_append]
  exact h.trans ((List.prefix_append s.data t.data).isInfix)

theorem strContains_appendR {t n : String} (s : String) (h : strContains t n) :
    strContains (s ++ t) n := by
  unfold strContains at h ⊢
  rw [String.data_append]
  exact h.trans ((List.suffix_append s.data t.data).isInfix)

theorem strContains_trans {a b n : String} (h1 : strContains a n) (h2 : strContains b a) :
    strContains b n :=
  List.IsInfix.trans h1 h2

/-! ## Trim lemmas

The layer-2 comparison of the code tests `cellText.includes(other.trim())`
on the untrimmed cell text, while the specification speaks of the trimmed
text of the cell.  The two agree because the needle is itself trimmed and
non-empty, so an occurrence can never overlap the whitespace margin that
trimming removes; the lemmas below prove this. -/

theorem dropWhile_head_false {α : Type} {p : α → Bool} :
    ∀ {l : List α} {c : α} {t : List α}, l.dropWhile p = c :: t → p c = false := by
  intro l
  induction l with
  | nil => intro c t h; simp [List.dropWhile] at h
  | cons x xs ih =>
    intro c t h
    rw [List.dropWhile_cons] at h
    by_cases hx : p x = true
    · rw [if_pos hx] at h
      exact ih h
    · rw [if_neg hx] at h
      cases h
      simpa using hx

theorem dropWhile_cons_false {α : Type} {p : α → Bool} {c : α} (h : p c = false) (t : List α) :
    (c :: t).dropWhile p = c :: t := by
  rw [List.dropWhile_cons, if_neg (by simp [h])]

theorem dropWhile_append_middle {α : Type} {p : α → Bool} {n : List α} {c : α} {nt : List α}
    (hn : n = c :: nt) (hc : p c = false) (s t : List α) :
    ∃ s1, List.dropWhile p (s ++ n ++ t) = s1 ++ n ++ t := by
  rw [List.append_assoc, List.dropWhile_append]
  by_cases he : (List.dropWhile p s).isEmpty
  · rw [if_pos he]
    refine ⟨[], ?_⟩
    subst hn
    rw [show (c :: nt) ++ t = c :: (nt ++ t) from rfl, dropWhile_cons_false hc]
    simp
  · rw [if_neg he]
    exact ⟨List.dropWhile p s, by rw [List.append_assoc]⟩

theorem trimChars_pref (l : List Char) :
    trimChars l <+: List.dropWhile isJsWs l := by
  unfold trimChars
  rw [← List.reverse_suffix, List.reverse_reverse]
  exact List.dropWhile_suffix _

theorem trimChars_within (l : List Char) : trimChars l <:+: l :=
  (trimChars_pref l).isInfix.trans (List.dropWhile_suffix _).isInfix

theorem trimChars_head_last {l : List Char} (h : trimChars l ≠ []) :
    (∃ c t, trimChars l = c :: t ∧ isJsWs c = false) ∧
    (∃ t c, trimChars l = t ++ [c] ∧ isJsWs c = false) := by
  have htrim : trimChars l
      = (List.dropWhile isJsWs (List.dropWhile isJsWs l).reverse).reverse := rfl
  cases hvv : List.dropWhile isJsWs (List.dropWhile isJsWs l).reverse with
  | nil => exact absurd (by rw [htrim, hvv]; rfl) h
  | cons c2 t2 =>
    have hc2 : isJsWs c2 = false := dropWhile_head_false hvv
    constructor
    · have hpref := trimChars_pref l
      cases huu : List.dropWhile isJsWs l with
      | nil =>
        rw [huu] at hpref
        exact absurd (List.prefix_nil.mp hpref) h
      | cons c0 u0 =>
        have hc0 : isJsWs c0 = false := dropWhile_head_false huu
        rw [huu] at hpref
        obtain ⟨r, hr⟩ := hpref
        cases hvr : trimChars l with
        | nil => exact absurd hvr h
        | cons d w =>
          rw [hvr] at hr
          have hd : d = c0 := by
            have := hr
            rw [List.cons_append] at this
            exact (List.cons.injEq _ _ _ _ ▸ this).1
          refine ⟨c0, w, ?_, hc0⟩
          rw [hd]

    · exact ⟨t2.reverse, c2, by rw [htrim, hvv]; simp, hc2⟩

theorem infix_trimChars {n l : List Char} (h : n <:+: l)
    (hh : ∃ c t, n = c :: t ∧ isJsWs c = false)
    (hl : ∃ t c, n = t ++ [c] ∧ isJsWs c = false) :
    n <:+: trimChars l := by
  obtain ⟨s, t, rfl⟩ := h
  obtain ⟨c, nt, hn, hc⟩ := hh
  obtain ⟨t2, c2, hn2, hc2⟩ := hl
  obtain ⟨s1, hd⟩ := dropWhile_append_middle hn hc s t
  unfold trimChars
  rw [hd]
  have hnrev : n.reverse = c2 :: t2.reverse := by rw [hn2]; simp
  have hrev : (s1 ++ n ++ t).reverse = t.reverse ++ n.reverse ++ s1.reverse := by
    rw [List.reverse_append, List.reverse_append, List.append_assoc]
  rw [hrev]
  obtain ⟨t1, hd2⟩ := dropWhile_append_middle hnrev hc2 t.reverse s1.reverse
  rw [hd2]
  refine ⟨s1, t1.reverse, ?_⟩
  rw [List.reverse_append, List.reverse_append, List.reverse_reverse, List.reverse_reverse,
    List.append_assoc]

theorem jsTrim_data (s : String) : (jsTrim s).data = trimChars s.data := rfl

theorem jsTrim_ne_empty_iff {s : String} : jsTrim s ≠ "" ↔ trimChars s.data ≠ [] := by
  unfold jsTrim
  exact not_congr mk_eq_empty_iff

theorem jsIncludes_trim_iff {hay o : String} (h : jsTrim o ≠ "") :
    jsIncludes hay (jsTrim o) = true ↔ strContains (jsTrim hay) (jsTrim o) := by
  have hne : trimChars o.data ≠ [] := jsTrim_ne_empty_iff.mp h
  obtain ⟨hh, hl⟩ := trimChars_head_last hne
  unfold jsIncludes strContains
  rw [decide_eq_true_iff, jsTrim_data, jsTrim_data]
  constructor
  · intro hx
    exact infix_trimChars hx hh hl
  · intro hx
    exact hx.trans (trimChars_within hay.data)

/-! ## Per-position keep decisions

The loop of `getCellByIndex` (and the identical loop of
`extractTableData`) decides for each cell, left to right, whether to keep
it; the decision depends on the cell, on the snapshot of later texts, and
on how many cells have been kept so far.  `keepFlags` computes the
per-position decisions, and the bridge lemmas below identify the two
loops with a selection by those flags. -/

/-- Default cell used by position-indexed statements. -/
def cellDefault : Cell := ⟨"", [], []⟩

/-- The keep decision for one cell, given that `n` cells were kept before it. -/
def keepCond (n : Nat) (c : Cell) (laterTexts : List String) : Bool :=
  decide (0 < c.subTds.length) ||
    (!containsOtherCellContent c.text laterTexts &&
     (decide (c.text ≠ "" ∧ 0 < (jsTrim c.text).length) || decide (0 < n)))

/-- The keep decision of each cell of a row, starting with `n` cells kept. -/
def keepFlags (n : Nat) : List Cell → List Bool
  | [] => []
  | c :: rest =>
    keepCond n c (rest.map Cell.text) ::
      keepFlags (if keepCond n c (rest.map Cell.text) then n + 1 else n) rest

/-- Select the cells whose flag is true. -/
def maskSelect : List Cell → List Bool → List Cell
  | [], _ => []
  | _ :: _, [] => []
  | c :: cs, b :: bs => if b then c :: maskSelect cs bs else maskSelect cs bs

theorem keepFlags_length (cells : List Cell) : ∀ n, (keepFlags n cells).length = cells.length := by
  induction cells with
  | nil => intro n; rfl
  | cons c rest ih =>
    intro n
    simp [keepFlags, ih]

theorem meaningfulCellsAux_eq (cells : List Cell) :
    ∀ acc : List Cell,
      meaningfulCellsAux acc cells = acc ++ maskSelect cells (keepFlags acc.length cells) := by
  induction cells with
  | nil => intro acc; simp [meaningfulCellsAux, keepFlags, maskSelect]
  | cons c rest ih =>
    intro acc
    simp only [meaningfulCellsAux, keepFlags]
    by_cases h1 : 0 < c.subTds.length
    · have hb : keepCond acc.length c (rest.map Cell.text) = true := by
        simp [keepCond, h1]
      rw [if_pos h1, ih (acc ++ [c]), hb]
      simp [maskSelect, List.length_append, List.append_assoc]
    · rw [if_neg h1]
      by_cases h2 : containsOtherCellContent c.text (rest.map Cell.text) = true
      · have hb : keepCond acc.length c (rest.map Cell.text) = false := by
          simp [keepCond, h1, h2]
        rw [if_pos h2, ih acc, hb]
        simp [maskSelect]
      · rw [if_neg h2]
        by_cases h3 : c.text ≠ "" ∧ 0 < (jsTrim c.text).length
        · have hb : keepCond acc.length c (rest.map Cell.text) = true := by
            simp only [keepCond, h1, h2]
            simp [h3]
          rw [if_pos h3, ih (acc ++ [c]), hb]
          simp [maskSelect, List.length_append, List.append_assoc]
        · rw [if_neg h3]
          by_cases h4 : 0 < acc.length
          · have hb : keepCond acc.length c (rest.map Cell.text) = true := by
              simp only [keepCond, h1, h2]
              simp [h3, h4]
            rw [if_pos h4, ih (acc ++ [c]), hb]
            simp [maskSelect, List.length_append, List.append_assoc]
          · have hb : keepCond acc.length c (rest.map Cell.text) = false := by
              simp only [keepCond, h1, h2]
              simp [h3, h4]
            rw [if_neg h4, ih acc, hb]
            simp [maskSelect]

theorem meaningfulCells_eq_mask (cells : List Cell) :
    meaningfulCells cells = maskSelect cells (keepFlags 0 cells) := by
  unfold meaningfulCells
  rw [meaningfulCellsAux_eq cells []]
  rfl

theorem meaningfulTextsAux_eq (cells : List Cell) :
    ∀ acc : List String,
      meaningfulTextsAux acc cells
        = acc ++ (maskSelect cells (keepFlags acc.length cells)).map (fun c => jsTrim c.text) := by
  induction cells with
  | nil => intro acc; simp [meaningfulTextsAux, keepFlags, maskSelect]
  | cons c rest ih =>
    intro acc
    simp only [meaningfulTextsAux, keepFlags]
    by_cases h1 : 0 < c.subTds.length
    · have hb : keepCond acc.length c (rest.map Cell.text) = true := by
        simp [keepCond, h1]
      rw [if_pos h1, ih (acc ++ [jsTrim c.text]), hb]
      simp [maskSelect, List.length_append, List.append_assoc]
    · rw [if_neg h1]
      by_cases h2 : containsOtherCellContent c.text (rest.map Cell.text) = true
      · have hb : keepCond acc.length c (rest.map Cell.text) = false := by
          simp [keepCond, h1, h2]
        rw [if_pos h2, ih acc, hb]
        simp [maskSelect]
      · rw [if_neg h2]
        by_cases h3 : c.text ≠ "" ∧ 0 < (jsTrim c.text).length
        · have hb : keepCond acc.length c (rest.map Cell.text) = true := by
            simp only [keepCond, h1, h2]
            simp [h3]
          rw [if_pos h3, ih (acc ++ [jsTrim c.text]), hb]
          simp [maskSelect, List.length_append, List.append_assoc]
        · rw [if_neg h3]
          by_cases h4 : 0 < acc.length
          · have hb : keepCond acc.length c (rest.map Cell.text) = true := by
              simp only [keepCond, h1, h2]
              simp [h3, h4]
            rw [if_pos h4, ih (acc ++ [jsTrim c.text]), hb]
            simp [maskSelect, List.length_append, List.append_assoc]
          · have hb : keepCond acc.length c (rest.map Cell.text) = false := by
              simp only [keepCond, h1, h2]
              simp [h3, h4]
            rw [if_neg h4, ih acc, hb]
            simp [maskSelect]

theorem meaningfulTexts_eq_map (cells : List Cell) :
    meaningfulTexts cells = (meaningfulCells cells).map (fun c => jsTrim c.text) := by
  unfold meaningfulTexts
  rw [meaningfulTextsAux_eq cells [], meaningfulCells_eq_mask]
  rfl

theorem keepFlags_getD (cells : List Cell) :
    ∀ n i, i < cells.length →
      ((keepFlags n cells).getD i false = true ↔
        (0 < (cells.getD i cellDefault).subTds.length ∨
         (containsOtherCellContent (cells.getD i cellDefault).text
            ((cells.drop (i+1)).map Cell.text) = false ∧
          ((cells.getD i cellDefault).text ≠ "" ∧ 0 < (jsTrim (cells.getD i cellDefault).text).length ∨
           0 < n + ((keepFlags n cells).take i).count true)))) := by
  induction cells with
  | nil => intro n i h; simp at h
  | cons c rest ih =>
    intro n i h
    cases i with
    | zero =>
      simp only [keepFlags, List.getD_cons_zero, List.take_zero, List.count_nil,
        Nat.add_zero, List.drop_succ_cons, List.drop_zero]
      unfold keepCond
      simp only [Bool.or_eq_true, Bool.and_eq_true, Bool.not_eq_true', decide_eq_true_iff]
    | succ j =>
      have hj : j < rest.length := by simpa using h
      simp only [keepFlags, List.getD_cons_succ, List.drop_succ_cons, List.take_succ_cons]
      rw [ih (if keepCond n c (rest.map Cell.text) then n + 1 else n) j hj]
      have hsum : (if keepCond n c (rest.map Cell.text) then n + 1 else n)
            + (((keepFlags (if keepCond n c (rest.map Cell.text) then n + 1 else n) rest).take j).count true)
          = n + (List.count true (keepCond n c (rest.map Cell.text) ::
              ((keepFlags (if keepCond n c (rest.map Cell.text) then n + 1 else n) rest).take j))) := by
        rw [List.count_cons]
        cases hb : keepCond n c (rest.map Cell.text)
        all_goals simp [hb]
        all_goals omega
      rw [← hsum]

/-- The flag that decides whether the cell at position `i` enters the
meaningful-cell sequence of a row. -/
def keptFlag (cells : List Cell) (i : Nat) : Bool := (keepFlags 0 cells).getD i false

/-- Text of the cell at position `i` of a row. -/
def cellTextAt (cells : List Cell) (i : Nat) : String := (cells.getD i cellDefault).text

/-- The cell at position `i` duplicates downstream content: its trimmed text
contains, as a substring, the trimmed text of some later cell of the same
row whose trimmed text is non-empty. -/
def dupArtifact (cells : List Cell) (i : Nat) : Prop :=
  ∃ j, i < j ∧ j < cells.length ∧ jsTrim (cellTextAt cells j) ≠ "" ∧
    strContains (jsTrim (cellTextAt cells i)) (jsTrim (cellTextAt cells j))

theorem contains_iff_dupArtifact (cells : List Cell) (i : Nat) :
    containsOtherCellContent (cellTextAt cells i) ((cells.drop (i+1)).map Cell.text) = true
      ↔ dupArtifact cells i := by
  unfold containsOtherCellContent dupArtifact cellTextAt
  rw [List.any_eq_true]
  constructor
  · rintro ⟨o, ho, hcond⟩
    rw [List.mem_map] at ho
    obtain ⟨cj, hcj, rfl⟩ := ho
    rw [List.mem_iff_getElem] at hcj
    obtain ⟨m, hm, hcm⟩ := hcj
    have hmlen : i + 1 + m < cells.length := by
      rw [List.length_drop] at hm
      omega
    rw [List.getElem_drop] at hcm
    have hcm2 : cells.getD (i + 1 + m) cellDefault = cj := by
      rw [List.getD_eq_getElem _ _ hmlen, hcm]
    simp only [Bool.and_eq_true, bne_iff_ne] at hcond
    obtain ⟨⟨hne, htne⟩, hinc⟩ := hcond
    exact ⟨i + 1 + m, by omega, hmlen, by rw [hcm2]; exact htne,
      by rw [hcm2]; exact (jsIncludes_trim_iff htne).mp hinc⟩
  · rintro ⟨j, hij, hjlen, htne, hcont⟩
    refine ⟨(cells.getD j cellDefault).text, ?_, ?_⟩
    · rw [List.mem_map]
      refine ⟨cells.getD j cellDefault, ?_, rfl⟩
      rw [List.mem_iff_getElem]
      refine ⟨j - (i + 1), ?_, ?_⟩
      · rw [List.length_drop]
        omega
      · rw [List.getElem_drop, List.getD_eq_getElem _ _ hjlen]
        congr 1
        omega
    · simp only [Bool.and_eq_true, bne_iff_ne]
      refine ⟨⟨?_, htne⟩, (jsIncludes_trim_iff htne).mpr hcont⟩
      intro hemp
      apply htne
      rw [hemp]
      rfl

theorem count_take_pos_iff (flags : List Bool) (i : Nat) :
    0 < (flags.take i).count true ↔ ∃ j, j < i ∧ flags.getD j false = true := by
  rw [show List.count true (flags.take i) = List.countP (· == true) (flags.take i) from rfl,
    List.countP_pos_iff]
  constructor
  · rintro ⟨b, hb, hbt⟩
    rw [List.mem_take_iff_getElem] at hb
    obtain ⟨j, hj, hjb⟩ := hb
    rw [lt_min_iff] at hj
    refine ⟨j, hj.1, ?_⟩
    rw [List.getD_eq_getElem _ _ hj.2, hjb]
    exact beq_iff_eq.mp hbt
  · rintro ⟨j, hji, hjt⟩
    have hjlen : j < flags.length := by
      by_contra hge
      rw [List.getD_eq_default _ _ (by omega)] at hjt
      exact Bool.false_ne_true hjt
    refine ⟨true, ?_, by simp⟩
    rw [List.mem_take_iff_getElem]
    refine ⟨j, lt_min_iff.mpr ⟨hji, hjlen⟩, ?_⟩
    rw [← List.getD_eq_getElem flags false hjlen]
    exact hjt

/-! ## Small string facts and message containment -/

theorem text_ne_of_trim {s : String} (h : jsTrim s ≠ "") : s ≠ "" := by
  intro he
  apply h
  rw [he]
  rfl

theorem length_pos_of_ne {s : String} (h : s ≠ "") : 0 < s.length := by
  cases s with
  | mk l =>
    cases l with
    | nil => exact absurd rfl h
    | cons c t => simp [String.length]

theorem strContains_affix (a n b : String) : strContains (a ++ (n ++ b)) n :=
  strContains_appendR a (strContains_appendL b (strContains_self n))

theorem strContains_message {e : TableErr} {n : String} (h : strContains e.details n) :
    strContains e.message n := by
  unfold TableErr.message createTableError createColoredError
  apply strContains_appendL
  apply strContains_appendL
  apply strContains_appendL
  exact strContains_appendR _ h

/-! ## Branch lemmas for getCellByIndex -/

theorem getCellByIndex_neg {cells : List Cell} {index : Int} (h : index < 0) :
    getCellByIndex cells index
      = .error ⟨.columns, "Column index " ++ toString index ++ " is invalid. Index must be 0 or greater.", some 0, some index⟩ := by
  unfold getCellByIndex
  rw [dif_pos h]

theorem getCellByIndex_oob {cells : List Cell} {index : Int} (h0 : ¬ index < 0)
    (h1 : ((meaningfulCells cells).length : Int) ≤ index) :
    getCellByIndex cells index
      = .error ⟨.columns, "Column index " ++ toString index ++ " is out of bounds. Row has " ++ toString (meaningfulCells cells).length ++ " meaningful columns (valid range: 0 to " ++ toString (((meaningfulCells cells).length : Int) - 1) ++ ").", some (((meaningfulCells cells).length : Int) - 1), some index⟩ := by
  unfold getCellByIndex
  rw [dif_neg h0, dif_pos h1]

theorem getCellByIndex_nat (cells : List Cell) (i : Nat) (h : i < (meaningfulCells cells).length) :
    getCellByIndex cells (i : Int) = .ok ((meaningfulCells cells).get ⟨i, h⟩) := by
  unfold getCellByIndex
  rw [dif_neg (by omega : ¬ (i : Int) < 0)]
  rw [dif_neg (by exact_mod_cast not_le.mpr h)]
  simp [Int.toNat_natCast]

/-! ## Header lemmas -/

theorem strContains_joinComma {l : List String} {name : String} (h : name ∈ l) :
    strContains (joinComma l) name := by
  induction l with
  | nil => cases h
  | cons a rest ih =>
    cases rest with
    | nil =>
      have : name = a := by simpa using h
      rw [this]
      exact strContains_self a
    | cons b t =>
      rcases List.mem_cons.mp h with h1 | h2
      · rw [h1]
        exact strContains_appendL _ (strContains_appendL _ (strContains_self a))
      · exact strContains_appendR _ (ih h2)

theorem mem_dupNames {l : List String} {name : String} (h : 2 ≤ l.count name) :
    name ∈ dupNames l := by
  have hmem : name ∈ l := by
    by_contra hnm
    rw [List.count_eq_zero.mpr hnm] at h
    omega
  have hklen : l.indexOf name < l.length := List.indexOf_lt_length.mpr hmem
  have htake : (l.take (l.indexOf name)).count name = 0 := by
    rw [List.count_eq_zero]
    intro hmm
    rw [List.mem_take_iff_getElem] at hmm
    obtain ⟨m, hmlt, hml⟩ := hmm
    rw [lt_min_iff] at hmlt
    have hfalse : (l[m] == name) = false :=
      List.not_of_lt_findIdx hmlt.1
    rw [hml] at hfalse
    simp at hfalse
  have hdrop : l.drop (l.indexOf name) = name :: l.drop (l.indexOf name + 1) := by
    rw [List.drop_eq_getElem_cons hklen, List.getElem_indexOf hklen]
  have hcnt2 : 0 < (l.drop (l.indexOf name + 1)).count name := by
    have hsplit : l.count name
        = (l.take (l.indexOf name)).count name + (l.drop (l.indexOf name)).count name := by
      conv_lhs => rw [← List.take_append_drop (l.indexOf name) l]
      exact List.count_append _ _ _
    rw [htake, hdrop, List.count_cons, if_pos (beq_self_eq_true name)] at hsplit
    omega
  have hmem2 : name ∈ l.drop (l.indexOf name + 1) := by
    by_contra hnm
    rw [List.count_eq_zero.mpr hnm] at hcnt2
    omega
  rw [List.mem_iff_getElem] at hmem2
  obtain ⟨m, hm, hme⟩ := hmem2
  rw [List.getElem_drop] at hme
  have hjlen : l.indexOf name + 1 + m < l.length := by
    rw [List.length_drop] at hm
    omega
  unfold dupNames
  rw [List.mem_map]
  refine ⟨(l.indexOf name + 1 + m, name), ?_, rfl⟩
  rw [List.mem_filter]
  constructor
  · rw [List.mem_enum_iff_getElem?]
    rw [List.getElem?_eq_getElem hjlen, hme]
  · simp only [bne_iff_ne]
    omega

theorem initializeHeaders_ok {hc : List (Option String)} {st : HeaderState}
    (h : initializeHeaders hc = .ok st) :
    st = ⟨headersOf hc, validHeaders hc⟩ ∧ (headersOf hc).Nodup ∧ headersOf hc ≠ [] := by
  unfold initializeHeaders at h
  by_cases h1 : hc.length = 0
  · rw [if_pos h1] at h
    cases h
  rw [if_neg h1] at h
  by_cases h2 : (headersOf hc).length = 0
  · rw [if_pos h2] at h
    cases h
  rw [if_neg h2] at h
  by_cases h3 : (headersOf hc).dedup.length ≠ (headersOf hc).length
  · rw [if_pos h3] at h
    cases h
  rw [if_neg h3] at h
  cases h
  push_neg at h3
  refine ⟨rfl, ?_, fun hh => h2 (by rw [hh]; rfl)⟩
  rw [← List.dedup_eq_self]
  exact (List.dedup_sublist _).eq_of_length h3

theorem lookupIndex_of_mem {hc : List (Option String)} (hnd : (headersOf hc).Nodup)
    {key : String} {i : Nat} (hi : i < hc.length) (hkey : key ≠ "")
    (hhi : headerTextOf (hc.getD i none) = key) :
    lookupIndex (validHeaders hc) key = some i := by
  have hmem : (key, i) ∈ validHeaders hc := by
    unfold validHeaders extractedHeaders
    rw [List.mem_filter]
    constructor
    · rw [List.mem_map]
      refine ⟨(i, hc.getD i none), ?_, by rw [hhi]⟩
      rw [List.mem_enum_iff_getElem?]
      rw [List.getElem?_eq_getElem hi, List.getD_eq_getElem _ _ hi]
    · simpa using length_pos_of_ne hkey
  have huniq : ∀ q ∈ validHeaders hc, q.1 = key → q = (key, i) := by
    intro q hq hq1
    have hmapfst : (validHeaders hc).map Prod.fst = headersOf hc := rfl
    exact List.inj_on_of_nodup_map (by rw [hmapfst]; exact hnd) hq hmem (by rw [hq1])
  unfold lookupIndex
  have hsome : ((validHeaders hc).reverse.find? (fun p => p.1 == key)).isSome := by
    rw [List.find?_isSome]
    exact ⟨(key, i), List.mem_reverse.mpr hmem, by simp⟩
  obtain ⟨q, hq⟩ := Option.isSome_iff_exists.mp hsome
  rw [hq]
  have hq1 : q.1 = key := by simpa using List.find?_some hq
  have hqmem : q ∈ validHeaders hc := List.mem_reverse.mp (List.mem_of_find?_eq_some hq)
  rw [huniq q hqmem hq1]
  rfl

theorem getCellByHeader_ok {hc : List (Option String)} {st : HeaderState}
    (hok : initializeHeaders hc = .ok st)
    {h : String} {i : Nat} (hi : i < hc.length) (hkey : jsTrim h ≠ "")
    (hhi : headerTextOf (hc.getD i none) = jsTrim h) (row : BodyRow) :
    getCellByHeader hc row h = .ok (row.allTdRefs[i]?) := by
  obtain ⟨hst, hnd, _⟩ := initializeHeaders_ok hok
  unfold getCellByHeader
  rw [hok, hst]
  dsimp only
  rw [lookupIndex_of_mem hnd hi hkey hhi]

theorem ne_of_length_pos {s : String} (h : 0 < s.length) : s ≠ "" := by
  intro he
  rw [he] at h
  exact absurd h (by decide)

theorem meaningfulCells_nil_of_empty :
    ∀ cells : List Cell, (∀ c ∈ cells, jsTrim c.text = "" ∧ c.subTds = []) →
      meaningfulCells cells = [] := by
  have haux : ∀ cells : List Cell, (∀ c ∈ cells, jsTrim c.text = "" ∧ c.subTds = []) →
      meaningfulCellsAux [] cells = [] := by
    intro cells
    induction cells with
    | nil => intro _; rfl
    | cons c rest ih =>
      intro h
      have hc := h c (List.mem_cons_self c rest)
      have h1 : ¬ 0 < c.subTds.length := by rw [hc.2]; simp
      have h2 : ¬ containsOtherCellContent c.text (rest.map Cell.text) = true := by
        intro hcc
        unfold containsOtherCellContent at hcc
        rw [List.any_eq_true] at hcc
        obtain ⟨o, ho, hcond⟩ := hcc
        simp only [Bool.and_eq_true, bne_iff_ne] at hcond
        rw [List.mem_map] at ho
        obtain ⟨cx, hcx, rfl⟩ := ho
        exact hcond.1.2 ((h cx (List.mem_cons_of_mem c hcx)).1)
      have h3 : ¬ (c.text ≠ "" ∧ 0 < (jsTrim c.text).length) := by
        rintro ⟨_, hlp⟩
        rw [hc.1] at hlp
        exact absurd hlp (by decide)
      have h4 : ¬ 0 < ([] : List Cell).length := by simp
      simp only [meaningfulCellsAux]
      rw [if_neg h1, if_neg h2, if_neg h3, if_neg h4]
      exact ih (fun x hx => h x (List.mem_cons_of_mem c hx))
  exact haux

/-! ## Concrete rows and tables used by the testable properties -/

def sushiCell0 : Cell := ⟨"Sushi Roll Chef Tanaka Japanese Edit", [], []⟩
def sushiCell1 : Cell := ⟨"Sushi Roll", [], []⟩
def sushiCell2 : Cell := ⟨"Chef Tanaka", [], []⟩
def sushiCell3 : Cell := ⟨"Japanese", [], []⟩
def sushiCell4 : Cell := ⟨"Edit", [], []⟩

/-- The duplication-artifact example row: cell 0 concatenates the texts of
cells 1 through 4. -/
def sushiRowCells : List Cell := [sushiCell0, sushiCell1, sushiCell2, sushiCell3, sushiCell4]

def aliceCell : Cell := ⟨"Alice", [], []⟩
def ageCell : Cell := ⟨"30", [], []⟩

/-- The leading-empty-cell example row. -/
def leadRowCells : List Cell := [⟨"", [], []⟩, aliceCell, ageCell]

/-! ## Claims -/

/-- C1: for every row, a direct-child cell with no nested descendant data
cells is discarded by the content-duplication layer exactly when its
trimmed text contains, as a substring, the trimmed text of some later
direct-child cell of the same row whose trimmed text is non-empty; on the
Sushi Roll example row, `getCellByIndex(row, 0)` returns the cell whose
text is exactly "Sushi Roll" (DOM cell 1). -/
theorem claim1_content_duplication_skip :
    (∀ cells : List Cell, meaningfulCells cells = maskSelect cells (keepFlags 0 cells))
    ∧ (∀ (cells : List Cell) (i : Nat), i < cells.length →
        (cells.getD i cellDefault).subTds = [] →
        ((dupArtifact cells i → keptFlag cells i = false)
         ∧ (jsTrim (cells.getD i cellDefault).text ≠ "" →
             (keptFlag cells i = false ↔ dupArtifact cells i))))
    ∧ (meaningfulCells sushiRowCells).map Cell.text
        = ["Sushi Roll", "Chef Tanaka", "Japanese", "Edit"]
    ∧ getCellByIndex sushiRowCells 0 = .ok sushiCell1 := by
  refine ⟨meaningfulCells_eq_mask, ?_, by decide, by decide⟩
  intro cells i hi hnest
  have hchar := keepFlags_getD cells 0 i hi
  have hct : cellTextAt cells i = (cells.getD i cellDefault).text := rfl
  have hdup := contains_iff_dupArtifact cells i
  rw [hct] at hdup
  have hsub : ¬ 0 < (cells.getD i cellDefault).subTds.length := by
    rw [hnest]
    simp
  have hkf : keptFlag cells i = (keepFlags 0 cells).getD i false := rfl
  constructor
  · intro hd
    rw [hkf]
    by_contra htrue
    rw [Bool.not_eq_false] at htrue
    rcases hchar.mp htrue with h1 | ⟨h2, _⟩
    · exact hsub h1
    · have hcc := hdup.mpr hd
      rw [h2] at hcc
      exact Bool.false_ne_true hcc
  · intro htne
    have h3 : (cells.getD i cellDefault).text ≠ ""
        ∧ 0 < (jsTrim (cells.getD i cellDefault).text).length :=
      ⟨text_ne_of_trim htne, length_pos_of_ne htne⟩
    have hiff : keptFlag cells i = true ↔
        containsOtherCellContent (cells.getD i cellDefault).text
          ((cells.drop (i+1)).map Cell.text) = false := by
      rw [hkf, hchar]
      constructor
      · rintro (h1 | ⟨h2, _⟩)
        · exact absurd h1 hsub
        · exact h2
      · intro h2
        exact Or.inr ⟨h2, Or.inl h3⟩
    constructor
    · intro hfalse
      have hnt : ¬ (keptFlag cells i = true) := by
        rw [hfalse]
        simp
      have hcc : containsOtherCellContent (cells.getD i cellDefault).text
          ((cells.drop (i+1)).map Cell.text) = true := by
        cases hb : containsOtherCellContent (cells.getD i cellDefault).text
            ((cells.drop (i+1)).map Cell.text)
        · exact absurd (hiff.mpr hb) hnt
        · rfl
      exact hdup.mp hcc
    · intro hd
      cases hb : keptFlag cells i
      · rfl
      · exfalso
        have hcf := hiff.mp hb
        have hcc := hdup.mpr hd
        rw [hcf] at hcc
        exact Bool.false_ne_true hcc

/-- C3: for every row, a direct-child cell with no nested cells that is not
discarded as a duplication artifact is kept exactly when its trimmed text
is non-empty or some earlier cell of the row was already kept; the row
["", "Alice", "30"] yields meaningful cells ["Alice", "30"] and
`getCellByIndex(row, 0)` returns the "Alice" cell. -/
theorem claim3_empty_cell_policy :
    (∀ cells : List Cell, meaningfulCells cells = maskSelect cells (keepFlags 0 cells))
    ∧ (∀ (cells : List Cell) (i : Nat), i < cells.length →
        (cells.getD i cellDefault).subTds = [] →
        ¬ dupArtifact cells i →
        (keptFlag cells i = true ↔
          (jsTrim (cells.getD i cellDefault).text ≠ ""
           ∨ ∃ j, j < i ∧ keptFlag cells j = true)))
    ∧ (meaningfulCells leadRowCells).map Cell.text = ["Alice", "30"]
    ∧ getCellByIndex leadRowCells 0 = .ok aliceCell := by
  refine ⟨meaningfulCells_eq_mask, ?_, by decide, by decide⟩
  intro cells i hi hnest hnd
  have hchar := keepFlags_getD cells 0 i hi
  have hct : cellTextAt cells i = (cells.getD i cellDefault).text := rfl
  have hdup := contains_iff_dupArtifact cells i
  rw [hct] at hdup
  have hsub : ¬ 0 < (cells.getD i cellDefault).subTds.length := by
    rw [hnest]
    simp
  have hcf : containsOtherCellContent (cells.getD i cellDefault).text
      ((cells.drop (i+1)).map Cell.text) = false := by
    cases hb : containsOtherCellContent (cells.getD i cellDefault).text
        ((cells.drop (i+1)).map Cell.text)
    · rfl
    · exact absurd (hdup.mp hb) hnd
  have hcount := count_take_pos_iff (keepFlags 0 cells) i
  have hkf : keptFlag cells i = (keepFlags 0 cells).getD i false := rfl
  rw [hkf, hchar]
  constructor
  · rintro (h1 | ⟨_, h3 | hcnt⟩)
    · exact absurd h1 hsub
    · exact Or.inl (ne_of_length_pos h3.2)
    · rw [Nat.zero_add] at hcnt
      obtain ⟨j, hj, hflag⟩ := hcount.mp hcnt
      exact Or.inr ⟨j, hj, hflag⟩
  · rintro (htne | ⟨j, hj, hkj⟩)
    · exact Or.inr ⟨hcf, Or.inl ⟨text_ne_of_trim htne, length_pos_of_ne htne⟩⟩
    · refine Or.inr ⟨hcf, Or.inr ?_⟩
      rw [Nat.zero_add]
      exact hcount.mpr ⟨j, hj, hkj⟩

/-- C10: in a row whose direct-child cells all have empty trimmed text and
no nested descendant cells, the meaningful-cell sequence is empty, every
non-negative index fails with an out-of-bounds error reporting the range
"0 to -1", and no index resolves a cell. -/
theorem claim10_all_empty_row :
    ∀ cells : List Cell,
      (∀ c ∈ cells, jsTrim c.text = "" ∧ c.subTds = []) →
      meaningfulCells cells = []
      ∧ (∀ index : Int, 0 ≤ index →
          ∃ e, getCellByIndex cells index = .error e ∧ e.etype = .columns
            ∧ strContains e.message "out of bounds"
            ∧ strContains e.message "0 to -1")
      ∧ (∀ (index : Int) (c : Cell), getCellByIndex cells index ≠ .ok c) := by
  intro cells hall
  have hnil : meaningfulCells cells = [] := meaningfulCells_nil_of_empty cells hall
  have hlen : (meaningfulCells cells).length = 0 := by
    rw [hnil]
    rfl
  refine ⟨hnil, ?_, ?_⟩
  · intro index hge
    have h0 : ¬ index < 0 := by omega
    have h1 : ((meaningfulCells cells).length : Int) ≤ index := by
      rw [hlen]
      simpa using hge
    refine ⟨_, getCellByIndex_oob h0 h1, rfl, ?_, ?_⟩
    · apply strContains_message
      show strContains ("Column index " ++ toString index ++ " is out of bounds. Row has "
        ++ toString (meaningfulCells cells).length
        ++ " meaningful columns (valid range: 0 to "
        ++ toString (((meaningfulCells cells).length : Int) - 1) ++ ").") "out of bounds"
      simp only [hlen, Nat.cast_zero]
      rw [show ((0 : Int) - 1) = -1 by decide, show toString (0 : Nat) = "0" from rfl,
        show toString (-1 : Int) = "-1" from rfl]
      simp only [String.append_assoc]
      apply strContains_appendR
      apply strContains_appendR
      decide
    · apply strContains_message
      show strContains ("Column index " ++ toString index ++ " is out of bounds. Row has "
        ++ toString (meaningfulCells cells).length
        ++ " meaningful columns (valid range: 0 to "
        ++ toString (((meaningfulCells cells).length : Int) - 1) ++ ").") "0 to -1"
      simp only [hlen, Nat.cast_zero]
      rw [show ((0 : Int) - 1) = -1 by decide, show toString (0 : Nat) = "0" from rfl,
        show toString (-1 : Int) = "-1" from rfl]
      simp only [String.append_assoc]
      apply strContains_appendR
      apply strContains_appendR
      decide
  · intro index c
    by_cases h0 : index < 0
    · rw [getCellByIndex_neg h0]
      intro h
      cases h
    · have h1 : ((meaningfulCells cells).length : Int) ≤ index := by
        rw [hlen]
        push_cast
        omega
      rw [getCellByIndex_oob h0 h1]
      intro h
      cases h

set_option maxRecDepth 8000 in
/-- C6: `getCellByIndex` fails on every negative index with a columns error
whose message states the index is invalid, and on every index at or above
the meaningful-cell count with a columns error whose message states "out
of bounds" and reports the valid range; on a row with 4 meaningful cells,
index 10 reports "out of bounds" and "0 to 3" and index -1 reports
"is invalid". -/
theorem claim6_index_error_taxonomy :
    (∀ (cells : List Cell) (index : Int), index < 0 →
      ∃ e, getCellByIndex cells index = .error e ∧ e.etype = .columns
        ∧ strContains e.message "is invalid")
    ∧ (∀ (cells : List Cell) (index : Int), 0 ≤ index →
        ((meaningfulCells cells).length : Int) ≤ index →
        ∃ e, getCellByIndex cells index = .error e ∧ e.etype = .columns
          ∧ strContains e.message "out of bounds"
          ∧ strContains e.message
              ("valid range: 0 to " ++ toString (((meaningfulCells cells).length : Int) - 1)))
    ∧ ((meaningfulCells sushiRowCells).length = 4
       ∧ (∃ e, getCellByIndex sushiRowCells 10 = .error e
           ∧ strContains e.message "out of bounds" ∧ strContains e.message "0 to 3")
       ∧ (∃ e, getCellByIndex sushiRowCells (-1) = .error e
           ∧ strContains e.message "is invalid")) := by
  have hlen4 : (meaningfulCells sushiRowCells).length = 4 := by decide
  refine ⟨?_, ?_, hlen4, ?_, ?_⟩
  · intro cells index h
    refine ⟨_, getCellByIndex_neg h, rfl, ?_⟩
    apply strContains_message
    show strContains ("Column index " ++ toString index
      ++ " is invalid. Index must be 0 or greater.") "is invalid"
    simp only [String.append_assoc]
    apply strContains_appendR
    apply strContains_appendR
    decide
  · intro cells index hge hlen
    have h0 : ¬ index < 0 := by omega
    refine ⟨_, getCellByIndex_oob h0 hlen, rfl, ?_, ?_⟩
    · apply strContains_message
      show strContains ("Column index " ++ toString index ++ " is out of bounds. Row has "
        ++ toString (meaningfulCells cells).length
        ++ " meaningful columns (valid range: 0 to "
        ++ toString (((meaningfulCells cells).length : Int) - 1) ++ ").") "out of bounds"
      simp only [String.append_assoc]
      apply strContains_appendR
      apply strContains_appendR
      apply strContains_appendL
      decide
    · apply strContains_message
      show strContains ("Column index " ++ toString index ++ " is out of bounds. Row has "
        ++ toString (meaningfulCells cells).length
        ++ " meaningful columns (valid range: 0 to "
        ++ toString (((meaningfulCells cells).length : Int) - 1) ++ ").")
        ("valid range: 0 to " ++ toString (((meaningfulCells cells).length : Int) - 1))
      simp only [String.append_assoc]
      apply strContains_appendR
      apply strContains_appendR
      apply strContains_appendR
      apply strContains_appendR
      rw [show (" meaningful columns (valid range: 0 to " : String)
        = " meaningful columns (" ++ "valid range: 0 to " from rfl]
      rw [String.append_assoc]
      apply strContains_appendR
      rw [← String.append_assoc]
      exact strContains_appendL _ (strContains_self _)
  · refine ⟨_, getCellByIndex_oob (by decide) (by decide), ?_, ?_⟩
    · exact strContains_message (by decide)
    · exact strContains_message (by decide)
  · exact ⟨_, getCellByIndex_neg (by decide), strContains_message (by decide)⟩


/-- C9: the meaningful-text sequence computed by `extractTableData` equals
the trimmed texts of the cells resolved by `getCellByIndex` at indices
0, 1, 2, ... for the same row, and each qualifying body row contributes
exactly one mapping to the extracted data. -/
theorem claim9_extract_agreement :
    (∀ cells : List Cell,
        meaningfulTexts cells = (meaningfulCells cells).map (fun c => jsTrim c.text))
    ∧ (∀ (cells : List Cell) (i : Nat), i < (meaningfulCells cells).length →
        ∃ c, getCellByIndex cells (i : Int) = .ok c
          ∧ (meaningfulTexts cells)[i]? = some (jsTrim c.text))
    ∧ (∀ (t : Table) (st : HeaderState), initializeHeaders t.headerCells = .ok st →
        extractTableData t = .ok ⟨st.headers,
            (t.bodyRowsAll.filter (fun r => !r.hasNestedTableParent)).map
              (fun r => extractRowRecord st.headers (meaningfulTexts r.directCells))⟩
        ∧ ∃ td, extractTableData t = .ok td ∧ td.rows.length = getRowCount t) := by
  refine ⟨meaningfulTexts_eq_map, ?_, ?_⟩
  · intro cells i h
    refine ⟨(meaningfulCells cells).get ⟨i, h⟩, getCellByIndex_nat cells i h, ?_⟩
    rw [meaningfulTexts_eq_map, List.getElem?_map, List.getElem?_eq_getElem h]
    rfl
  · intro t st hok
    have hextract : extractTableData t = .ok ⟨st.headers,
        (t.bodyRowsAll.filter (fun r => !r.hasNestedTableParent)).map
          (fun r => extractRowRecord st.headers (meaningfulTexts r.directCells))⟩ := by
      unfold extractTableData
      rw [hok]
    exact ⟨hextract, ⟨_, hextract, by simp [getRowCount]⟩⟩

/-- The header row of the original-index example: an empty first header
followed by three non-empty headers. -/
def exHeaderCells : List (Option String) := [some "", some "A", some "B", some "C"]

/-- C2: when headers initialize successfully, `getCellByHeader` resolves a
header name to the td at the header's original DOM column position among
all header cells, not at its position among the remaining non-empty
headers; with an empty first header and three non-empty headers, the
second non-empty header resolves to DOM index 2. -/
theorem claim2_original_index_preservation :
    (∀ (hc : List (Option String)) (st : HeaderState),
        initializeHeaders hc = .ok st →
        ∀ (h : String) (i : Nat), i < hc.length →
          jsTrim h ≠ "" →
          headerTextOf (hc.getD i none) = jsTrim h →
          ∀ row : BodyRow, getCellByHeader hc row h = .ok (row.allTdRefs[i]?))
    ∧ (∀ r : Row, (∀ c ∈ r.cells, c.subRows = []) →
        (BodyRow.outer r).allTdRefs = r.cells.map TdRef.outer)
    ∧ (∀ row : BodyRow, getCellByHeader exHeaderCells row "B" = .ok (row.allTdRefs[2]?))
    ∧ (∃ st, initializeHeaders exHeaderCells = .ok st
        ∧ st.headers = ["A", "B", "C"]
        ∧ List.indexOf "B" st.headers = 1
        ∧ lookupIndex st.valid "B" = some 2) := by
  have hmain : ∀ (hc : List (Option String)) (st : HeaderState),
      initializeHeaders hc = .ok st →
      ∀ (h : String) (i : Nat), i < hc.length →
        jsTrim h ≠ "" →
        headerTextOf (hc.getD i none) = jsTrim h →
        ∀ row : BodyRow, getCellByHeader hc row h = .ok (row.allTdRefs[i]?) :=
    fun _ _ hok _ _ hi hkey hhi row => getCellByHeader_ok hok hi hkey hhi row
  refine ⟨hmain, ?_, ?_, ?_⟩
  · have haux : ∀ cs : List Cell, (∀ c ∈ cs, c.subRows = []) →
        cs.flatMap (fun c => TdRef.outer c :: c.subTds.map TdRef.basic) = cs.map TdRef.outer := by
      intro cs
      induction cs with
      | nil => intro _; rfl
      | cons c t ih =>
        intro h
        rw [List.flatMap_cons, List.map_cons]
        have hcsub : c.subTds = [] := by
          unfold Cell.subTds
          rw [h c (List.mem_cons_self c t)]
          rfl
        rw [hcsub]
        simp [ih (fun x hx => h x (List.mem_cons_of_mem c hx))]
    intro r hr
    exact haux r.cells hr
  · intro row
    exact hmain exHeaderCells ⟨["A", "B", "C"], [("A", 1), ("B", 2), ("C", 3)]⟩
      (by decide) "B" 2 (by decide) (by decide) (by decide) row
  · exact ⟨⟨["A", "B", "C"], [("A", 1), ("B", 2), ("C", 3)]⟩, by decide, rfl, by decide, by decide⟩

/-- C8: header initialization fails with a structure error exactly when the
table has zero header cells or all headers are empty after trimming; in
every other case either initialization succeeds with a non-empty header
list or it fails with a headers error (duplicates), never with a
structure error. -/
theorem claim8_structure_error_conditions :
    ∀ hc : List (Option String),
      ((∃ e, initializeHeaders hc = .error e ∧ e.etype = .struct)
        ↔ (hc.length = 0 ∨ headersOf hc = []))
      ∧ (¬ (hc.length = 0 ∨ headersOf hc = []) →
          ((∃ st, initializeHeaders hc = .ok st ∧ st.headers ≠ [])
           ∨ (∃ e, initializeHeaders hc = .error e ∧ e.etype = .headers))) := by
  intro hc
  constructor
  · constructor
    · rintro ⟨e, he, het⟩
      by_cases h1 : hc.length = 0
      · exact Or.inl h1
      by_cases h2 : (headersOf hc).length = 0
      · exact Or.inr (List.length_eq_zero.mp h2)
      exfalso
      unfold initializeHeaders at he
      rw [if_neg h1, if_neg h2] at he
      by_cases h3 : (headersOf hc).dedup.length ≠ (headersOf hc).length
      · rw [if_pos h3] at he
        cases he
        simp at het
      · rw [if_neg h3] at he
        cases he
    · rintro (h1 | h2)
      · exact ⟨_, by unfold initializeHeaders; rw [if_pos h1], rfl⟩
      · by_cases h1 : hc.length = 0
        · exact ⟨_, by unfold initializeHeaders; rw [if_pos h1], rfl⟩
        · have h2l : (headersOf hc).length = 0 := by rw [h2]; rfl
          exact ⟨_, by unfold initializeHeaders; rw [if_neg h1, if_pos h2l], rfl⟩
  · intro hno
    push_neg at hno
    obtain ⟨h1, h2⟩ := hno
    have h2l : ¬ (headersOf hc).length = 0 := fun hh => h2 (List.length_eq_zero.mp hh)
    by_cases h3 : (headersOf hc).dedup.length ≠ (headersOf hc).length
    · refine Or.inr ?_
      unfold initializeHeaders
      rw [if_neg h1, if_neg h2l, if_pos h3]
      exact ⟨_, rfl, rfl⟩
    · refine Or.inl ⟨⟨headersOf hc, validHeaders hc⟩, ?_, h2⟩
      unfold initializeHeaders
      rw [if_neg h1, if_neg h2l, if_neg h3]

/-- C7: whenever the non-empty trimmed header texts contain a duplicate,
initialization (and hence `getHeaders`) fails with a headers error whose
message lists every duplicated header name. -/
theorem claim7_header_uniqueness :
    ∀ hc : List (Option String),
      ¬ (headersOf hc).Nodup →
      ∃ e, initializeHeaders hc = .error e ∧ e.etype = .headers
        ∧ getHeaders hc = .error e
        ∧ ∀ name, 2 ≤ (headersOf hc).count name → strContains e.message name := by
  intro hc hnd
  have hne : headersOf hc ≠ [] := by
    intro h
    rw [h] at hnd
    exact hnd List.nodup_nil
  have h1 : ¬ hc.length = 0 := by
    intro hz
    apply hne
    rw [List.length_eq_zero.mp hz]
    rfl
  have h2 : ¬ (headersOf hc).length = 0 := fun hh => hne (List.length_eq_zero.mp hh)
  have hd : (headersOf hc).dedup.length ≠ (headersOf hc).length := by
    intro heq
    apply hnd
    rw [← (List.dedup_sublist (headersOf hc)).eq_of_length heq]
    exact List.nodup_dedup _
  have hinit : initializeHeaders hc = .error ⟨.headers,
      "Table contains duplicate header names: " ++ joinComma (dupNames (headersOf hc))
        ++ ". Headers must be unique.", none, none⟩ := by
    unfold initializeHeaders
    rw [if_neg h1, if_neg h2, if_pos hd]
  refine ⟨_, hinit, rfl, ?_, ?_⟩
  · unfold getHeaders
    rw [hinit]
    rfl
  · intro name hcnt
    apply strContains_message
    exact strContains_appendL _ (strContains_appendR _ (strContains_joinComma (mem_dupNames hcnt)))

/-! ## Claim C4: row resolution of clickCellAction -/

/-- The error type of a failed call. -/
def errTypeOf {α : Type} : Except TableErr α → Option ErrType
  | .error e => some e.etype
  | .ok _ => none

/-- A table with one header, one direct body row, and a nested table with
one row inside the single cell: one qualifying body row, but two rows
matched by `tbody > tr`. -/
def t4cex : Table := ⟨[some "H"], [⟨[⟨"x", [], [[⟨"y", []⟩]]⟩]⟩]⟩

/-- C4 counterexample: rowIndex 1 is out of range of the qualifying body
rows (there is exactly 1), so the claim requires a RowIndexOutOfBoundsError;
instead `clickCellAction` resolves the nested-table row (the second entry of
the unfiltered `tbody > tr` list) and fails with a CellActionNotFoundError. -/
theorem claim4_counterexample :
    getRowCount t4cex = 1
    ∧ t4cex.bodyRowsAll.length = 2
    ∧ errTypeOf (clickCellAction t4cex 1 "H" "button") = some ErrType.cell
    ∧ ErrType.cell ≠ ErrType.rows :=
  ⟨by decide, by decide, by decide, by decide⟩

/-- C4 amended: `clickCellAction` resolves the row at rowIndex among all
rows matched by `tbody > tr` in document order, including rows of nested
tables; it fails with a RowIndexOutOfBoundsError exactly when rowIndex is
at or beyond that unfiltered row count (not the qualifying-row count),
propagates header-lookup errors, and fails with a CellActionNotFoundError
when the resolved cell has no descendant matching the action selector. -/
theorem claim4_amended :
    ∀ (t : Table) (rowIndex : Nat) (h sel : String),
      (t.bodyRowsAll.length ≤ rowIndex →
        ∃ e, clickCellAction t rowIndex h sel = .error e ∧ e.etype = .rows
          ∧ strContains e.message "is out of bounds")
      ∧ (∀ row, t.bodyRowsAll[rowIndex]? = some row →
          (∀ e, getCellByHeader t.headerCells row h = .error e →
            clickCellAction t rowIndex h sel = .error e)
          ∧ (∀ td, getCellByHeader t.headerCells row h = .ok (some td) →
              ((td.actionCount sel = 0 →
                ∃ e, clickCellAction t rowIndex h sel = .error e ∧ e.etype = .cell
                  ∧ strContains e.message "No action element found")
               ∧ (0 < td.actionCount sel →
                  clickCellAction t rowIndex h sel = .ok td)))) := by
  intro t rowIndex h sel
  constructor
  · intro hle
    have herr : clickCellAction t rowIndex h sel = .error ⟨.rows,
        "Row index " ++ toString rowIndex ++ " is out of bounds. Table has "
          ++ toString t.bodyRowsAll.length ++ " rows.",
        some ((t.bodyRowsAll.length : Int) - 1), some (rowIndex : Int)⟩ := by
      unfold clickCellAction
      rw [dif_pos hle]
    refine ⟨_, herr, rfl, ?_⟩
    apply strContains_message
    show strContains ("Row index " ++ toString rowIndex ++ " is out of bounds. Table has "
      ++ toString t.bodyRowsAll.length ++ " rows.") "is out of bounds"
    simp only [String.append_assoc]
    apply strContains_appendR
    apply strContains_appendR
    apply strContains_appendL
    decide
  · intro row hrow
    obtain ⟨hlt, hval⟩ := List.getElem?_eq_some.mp hrow
    have hnle : ¬ t.bodyRowsAll.length ≤ rowIndex := by omega
    constructor
    · intro e he
      unfold clickCellAction
      rw [dif_neg hnle]
      simp only [List.get_eq_getElem]
      rw [hval, he]
    · intro td htd
      constructor
      · intro hzero
        have herr : clickCellAction t rowIndex h sel = .error ⟨.cell,
            "No action element found matching selector \"" ++ sel ++ "\" in cell at row "
              ++ toString rowIndex ++ ", column \"" ++ h ++ "\".", none, none⟩ := by
          unfold clickCellAction
          rw [dif_neg hnle]
          simp only [List.get_eq_getElem]
          rw [hval, htd]
          dsimp only
          rw [if_pos hzero]
        refine ⟨_, herr, rfl, ?_⟩
        apply strContains_message
        show strContains ("No action element found matching selector \"" ++ sel
          ++ "\" in cell at row " ++ toString rowIndex ++ ", column \"" ++ h ++ "\".")
          "No action element found"
        simp only [String.append_assoc]
        apply strContains_appendL
        decide
      · intro hpos
        unfold clickCellAction
        rw [dif_neg hnle]
        simp only [List.get_eq_getElem]
        rw [hval, htd]
        dsimp only
        rw [if_neg (by omega)]

/-! ## Claim C5: color-support detection -/

/-- C5 counterexample: with a truthy `process.stdout.isTTY`,
`supportsColors()` returns true even though NO_COLOR is set; and with a
non-TTY stdout and NO_COLOR set to the empty string, it also returns true.
Both environments satisfy "NO_COLOR is set" yet color support is reported. -/
theorem claim5_counterexample :
    ((Env.mk true (some "1") none).noColorVar ≠ none
      ∧ supportsColors (Env.mk true (some "1") none) = true)
    ∧ ((Env.mk false (some "") none).noColorVar ≠ none
      ∧ supportsColors (Env.mk false (some "") none) = true) :=
  ⟨⟨by decide, by decide⟩, ⟨by decide, by decide⟩⟩

/-- C5 amended: when stdout is not a TTY, and NO_COLOR is set to a
non-empty value or CI equals "true", `supportsColors()` returns false and
`createSmartError` falls back to the plain, undecorated error text. -/
theorem claim5_amended :
    ∀ env : Env, env.stdoutIsTTY = false →
      ((∃ s, env.noColorVar = some s ∧ s ≠ "") ∨ env.ciVar = some "true") →
      supportsColors env = false
      ∧ ∀ (msg : String) (c s : Option String),
          createSmartError env msg c s = plainErrorText msg c s := by
  intro env htty hcond
  have hsc : supportsColors env = false := by
    unfold supportsColors
    rw [htty]
    simp only [Bool.false_eq_true, if_false]
    rcases hcond with ⟨s, hs, hsne⟩ | hci
    · rw [hs]
      simp [optTruthy, hsne]
    · rw [hci]
      simp [optTruthy]
  refine ⟨hsc, fun msg c s => ?_⟩
  unfold createSmartError
  rw [hsc]
  simp

/-! ## Witnesses -/

/-- All-empty example row for the C10 witness. -/
def emptyRowCells : List Cell := [⟨" ", [], []⟩, ⟨"", [], []⟩]

/-- Duplicated header row for the C7 witness. -/
def dupHeaderCells : List (Option String) := [some "A", some "B", some "A"]

/-- Flat data row for the C2 witness. -/
def exFlatRow : Row := ⟨[⟨"r0", [], []⟩, ⟨"r1", [], []⟩, ⟨"r2", [], []⟩, ⟨"r3", [], []⟩]⟩

/-- Witness for C1: the concatenating cell 0 of the Sushi Roll row is
discarded by the duplication layer. -/
theorem claim1_witness : keptFlag sushiRowCells 0 = false :=
  (claim1_content_duplication_skip.2.1 sushiRowCells 0 (by decide) (by decide)).1
    ⟨1, by decide, by decide, by decide, by decide⟩

/-- Witness for C2: header "B" of the example table resolves to the td at
DOM index 2 of a concrete flat row. -/
theorem claim2_witness :
    getCellByHeader exHeaderCells (BodyRow.outer exFlatRow) "B"
      = .ok ((BodyRow.outer exFlatRow).allTdRefs[2]?) :=
  claim2_original_index_preservation.1 exHeaderCells
    ⟨["A", "B", "C"], [("A", 1), ("B", 2), ("C", 3)]⟩
    (by decide) "B" 2 (by decide) (by decide) (by decide) (BodyRow.outer exFlatRow)

/-- Witness for C3: the empty-cell policy characterization instantiated at
the leading empty cell of the ["", "Alice", "30"] row. -/
theorem claim3_witness :
    keptFlag leadRowCells 0 = true ↔
      (jsTrim (leadRowCells.getD 0 cellDefault).text ≠ ""
       ∨ ∃ j, j < 0 ∧ keptFlag leadRowCells j = true) :=
  claim3_empty_cell_policy.2.1 leadRowCells 0 (by decide) (by decide)
    (fun hd => absurd ((contains_iff_dupArtifact leadRowCells 0).mpr hd) (by decide))

/-- Witness for C4 (amended): rowIndex 2 is past the unfiltered row count
of the nested-table example, so the rows error is raised. -/
theorem claim4_amended_witness :
    ∃ e, clickCellAction t4cex 2 "H" "button" = .error e ∧ e.etype = .rows
      ∧ strContains e.message "is out of bounds" :=
  (claim4_amended t4cex 2 "H" "button").1 (by decide)

/-- Witness for C5 (amended): non-TTY stdout with NO_COLOR=1 disables colors. -/
theorem claim5_amended_witness :
    supportsColors (Env.mk false (some "1") none) = false :=
  (claim5_amended (Env.mk false (some "1") none) rfl (Or.inl ⟨"1", rfl, by decide⟩)).1

/-- Witness for C6: a negative index on the empty row fails as invalid. -/
theorem claim6_witness :
    ∃ e, getCellByIndex ([] : List Cell) (-5) = .error e ∧ e.etype = .columns
      ∧ strContains e.message "is invalid" :=
  claim6_index_error_taxonomy.1 [] (-5) (by decide)

/-- Witness for C7: headers A, B, A fail with a headers error listing every
duplicated name. -/
theorem claim7_witness :
    ∃ e, initializeHeaders dupHeaderCells = .error e ∧ e.etype = .headers
      ∧ getHeaders dupHeaderCells = .error e
      ∧ ∀ name, 2 ≤ (headersOf dupHeaderCells).count name → strContains e.message name :=
  claim7_header_uniqueness dupHeaderCells (by decide)

/-- Witness for C8: a table with one non-empty and one empty header
initializes without a structure error. -/
theorem claim8_witness :
    (∃ st, initializeHeaders [some "A", some ""] = .ok st ∧ st.headers ≠ [])
    ∨ (∃ e, initializeHeaders [some "A", some ""] = .error e ∧ e.etype = .headers) :=
  (claim8_structure_error_conditions [some "A", some ""]).2 (by decide)

/-- Witness for C9: index 0 of the Sushi Roll row resolves to a cell whose
trimmed text is the first extracted meaningful text. -/
theorem claim9_witness :
    ∃ c, getCellByIndex sushiRowCells ((0 : Nat) : Int) = .ok c
      ∧ (meaningfulTexts sushiRowCells)[0]? = some (jsTrim c.text) :=
  claim9_extract_agreement.2.1 sushiRowCells 0 (by decide)

/-- Witness for C10: a row of one whitespace cell and one empty cell has an
empty meaningful-cell sequence. -/
theorem claim10_witness : meaningfulCells emptyRowCells = [] :=
  (claim10_all_empty_row emptyRowCells (by decide)).1

end Tabulon
